import Mathlib

/-!
Verification development for the text-chunking engine
(`src/chunking/text_chunker.py` of the Sematic_Search_System repository).

The Python code is shallowly embedded: strings are `List Char`, Python ints are
`Int`, Python float statistics are exact unreduced fractions (`PyFloat`; the
claims checked here only involve the integer counters and reset-to-zero, where
floats and exact fractions agree), `re` patterns are hand-compiled scanners
for the two concrete patterns the code uses, and the `while` loop of
`_chunk_fixed_size` is given an explicit fuel argument: `none` models
non-termination (or a raised exception further down), and a theorem shows the
fuel chosen is sufficient whenever the loop provably terminates.

Methods that the repository calls but nowhere defines (`_find_word_boundary`,
`_split_sentences`, `_chunk_recursive`, `get_statistics`, `reset_statistics`)
are modelled from the spec; each carries a doc comment saying so.
-/

/-- Python `\s` for the ASCII range (space, tab, newline, carriage return,
vertical tab, form feed).  The inputs in this development are ASCII. -/
def isSpacePy (c : Char) : Bool :=
  c = ' ' || c = '\t' || c = '\n' || c = '\r' || c = '\x0b' || c = '\x0c'

/-- The sentence-ending punctuation class `[.!?]` of `sentence_pattern`. -/
def isSentPunct (c : Char) : Bool :=
  c = '.' || c = '!' || c = '?'

/-- Normalise one Python slice endpoint for a sequence of length `n`:
negative indices count from the end and are clamped to `0`; non-negative
indices are clamped to `n`. -/
def pyIdx (n : Nat) (i : Int) : Nat :=
  if i < 0 then (i + n).toNat else min i.toNat n

/-- Python slicing `l[a:b]` (step 1). -/
def pySlice (l : List Char) (a b : Int) : List Char :=
  (l.take (pyIdx l.length b)).drop (pyIdx l.length a)

/-- Python `str.strip()`: drop leading and trailing whitespace. -/
def pyStrip (l : List Char) : List Char :=
  ((l.dropWhile isSpacePy).reverse.dropWhile isSpacePy).reverse

/-- All non-whitespace characters of a string, in order. -/
def dropWs (l : List Char) : List Char :=
  l.filter (fun c => !isSpacePy c)

/-- Python `sep.join(parts)` for a list of strings. -/
def joinSep (sep : List Char) : List (List Char) → List Char
  | [] => []
  | [x] => x
  | x :: y :: rest => x ++ sep ++ joinSep sep (y :: rest)

/-- Length of the maximal prefix of `l` whose characters satisfy `p`
(the greedy run a regex class-plus quantifier consumes). -/
def runLen (p : Char → Bool) : List Char → Nat
  | [] => 0
  | c :: cs => if p c then runLen p cs + 1 else 0

/-- Length of the greedy `[.!?]+` run at the head of `c :: cs`, given
`isSentPunct c`. -/
def punctRun (c : Char) (cs : List Char) : Nat :=
  runLen isSentPunct cs + 1

/-- Length of the whitespace run right after the punctuation run that starts
at the head of `c :: cs` (the greedy `[\s\n]+` part of a candidate match). -/
def wsRun (c : Char) (cs : List Char) : Nat :=
  runLen isSpacePy ((c :: cs).drop (punctRun c cs))

/-- Helper for `sentLastEnd`: scan the remaining suffix `s`, whose first
character sits at offset `i` of the searched string, remembering in `best`
the end offset of the last `[.!?]+[\s\n]+` match found so far.  This models
`list(sentence_pattern.finditer(search_text))[-1].end()`: `finditer` yields
non-overlapping leftmost matches with both quantifiers greedy. -/
def sentLastEndAux : Nat → List Char → Nat → Option Nat → Option Nat
  | _, [], _, best => best
  | 0, _ :: _, _, best => best
  | fuel + 1, c :: cs, i, best =>
    if isSentPunct c then
      if 0 < wsRun c cs then
        sentLastEndAux fuel ((c :: cs).drop (punctRun c cs + wsRun c cs))
          (i + punctRun c cs + wsRun c cs) (some (i + punctRun c cs + wsRun c cs))
      else
        sentLastEndAux fuel cs (i + 1) best
    else
      sentLastEndAux fuel cs (i + 1) best

/-- End offset of the last match of `sentence_pattern` (`[.!?]+[\s\n]+`) in
`s`, if any match exists.  The structural fuel `s.length` is an upper bound
on the scan steps: every step of `sentLastEndAux` consumes at least one
character of the suffix, so the fuel never runs out on it. -/
def sentLastEnd (s : List Char) : Option Nat :=
  sentLastEndAux s.length s 0 none

/-- Modelled from the spec: `_find_word_boundary` is called at
`text_chunker.py:196` but defined nowhere in the repository (the unit tests
mock it).  Spec section 4.2: with no sentence end in the window, fall back to
the nearest preceding word boundary (whitespace) before the window end, and
if none exists cut exactly at the window end.  The boundary returned is the
offset of the last whitespace character strictly inside `(start, e)`. -/
def findWordBoundary (text : List Char) (start e : Int) : Int :=
  match (pySlice text (start + 1) e).reverse.findIdx? isSpacePy with
  | some k => start + 1 + (((pySlice text (start + 1) e).length - 1 - k : Nat) : Int)
  | none => e

/-- The five members of the `ChunkingStrategy` enum. -/
inductive ChunkingStrategy where
  | fixed_size
  | sentence
  | paragraph
  | semantic
  | recursive
deriving DecidableEq, Repr

/-- The `.value` string of each `ChunkingStrategy` member. -/
def ChunkingStrategy.value : ChunkingStrategy → List Char
  | .fixed_size => "fixed_size".toList
  | .sentence => "sentence".toList
  | .paragraph => "paragraph".toList
  | .semantic => "semantic".toList
  | .recursive => "recursive".toList

/-- A Python float value arising from the statistics arithmetic, modelled as
an exact unreduced fraction so that every operation reduces inside the
kernel.  The claims verified in this development only ever inspect the
integer counters and the reset-to-zero state, which this choice does not
affect. -/
structure PyFloat where
  num : Int
  den : Int
deriving DecidableEq, Repr

def PyFloat.ofInt (n : Int) : PyFloat :=
  { num := n, den := 1 }

def PyFloat.add (a b : PyFloat) : PyFloat :=
  { num := a.num * b.den + b.num * a.den, den := a.den * b.den }

def PyFloat.sub (a b : PyFloat) : PyFloat :=
  { num := a.num * b.den - b.num * a.den, den := a.den * b.den }

def PyFloat.mul (a b : PyFloat) : PyFloat :=
  { num := a.num * b.num, den := a.den * b.den }

def PyFloat.div (a b : PyFloat) : PyFloat :=
  { num := a.num * b.den, den := a.den * b.num }

/-- The `self.stats` dictionary: two integer counters and two running
averages (Python floats, modelled as `PyFloat`). -/
structure Stats where
  texts_chunked : Int
  total_chunks_created : Int
  avg_chunk_size : PyFloat
  avg_chunks_per_text : PyFloat
deriving DecidableEq, Repr

/-- The zero statistics installed by `__init__` (and by the spec-modelled
`reset_statistics`). -/
def initStats : Stats :=
  { texts_chunked := 0, total_chunks_created := 0
    avg_chunk_size := PyFloat.ofInt 0, avg_chunks_per_text := PyFloat.ofInt 0 }

/-- A `TextChunker` instance: the five configuration fields plus the
mutable statistics dictionary. -/
structure TextChunker where
  chunk_size : Int
  chunk_overlap : Int
  strategy : ChunkingStrategy
  min_chunk_size : Int
  respect_sentence_boundary : Bool
  stats : Stats
deriving DecidableEq, Repr

/-- `TextChunker.__init__`: stores the five configuration values verbatim and
zeroes the statistics.  The source performs no validation of any argument. -/
def mkTextChunker (chunk_size chunk_overlap : Int) (strategy : ChunkingStrategy)
    (min_chunk_size : Int) (respect_sentence_boundary : Bool) : TextChunker :=
  { chunk_size := chunk_size, chunk_overlap := chunk_overlap
    strategy := strategy, min_chunk_size := min_chunk_size
    respect_sentence_boundary := respect_sentence_boundary
    stats := initStats }

/-- Constructor following the spec words rather than the source, for
comparison: spec sections 3 and 7 demand that `target_size <= 0` be rejected
with a hard failure at construction time (`must be > 0`). -/
def mkTextChunkerSpec (chunk_size chunk_overlap : Int) (strategy : ChunkingStrategy)
    (min_chunk_size : Int) (respect_sentence_boundary : Bool) : Option TextChunker :=
  if chunk_size ≤ 0 then none
  else some (mkTextChunker chunk_size chunk_overlap strategy
    min_chunk_size respect_sentence_boundary)

/-- The list a produced window contributes: dropped when it strips to empty
(`if chunk: chunks.append(chunk)`, lines 179-180 and 204-205). -/
def keepIf (chunk : List Char) : List (List Char) :=
  if chunk = [] then [] else [chunk]

/-- The cut offset `actual_end` for a non-final window `[start, e)`
(`text_chunker.py:184-200`): with boundary respect on, the end of the last
sentence match in the window, else the word-boundary fallback; with boundary
respect off, exactly `e`. -/
def actualEnd (tc : TextChunker) (text : List Char) (start e : Int) : Int :=
  if tc.respect_sentence_boundary then
    match sentLastEnd (pySlice text start e) with
    | some m => start + (m : Int)
    | none => findWordBoundary text start e
  else e

/-- The next window start (`text_chunker.py:207-215`): `actual_end` minus the
overlap, forced to `actual_end` when that would not strictly advance. -/
def nextStart (tc : TextChunker) (start ae : Int) : Int :=
  if ae - tc.chunk_overlap ≤ start then ae else ae - tc.chunk_overlap

/-- The `while start < len(text)` loop of `_chunk_fixed_size`
(`text_chunker.py:172-216`), with an explicit fuel argument: `none` models a
loop that does not terminate within `fuel` iterations.  Positions are `Int`
exactly as Python ints; `start` begins at `0` and the source only ever moves
it to `actual_end - chunk_overlap`, or to `actual_end` when that would not
strictly advance it (the progress guard at lines 211-213). -/
def chunkFixedSizeLoop (tc : TextChunker) (text : List Char) :
    Nat → Int → List (List Char) → Option (List (List Char))
  | 0, _, _ => none
  | fuel + 1, start, chunks =>
    if start < (text.length : Int) then
      if (text.length : Int) ≤ start + tc.chunk_size then
        -- final window: take the remainder `text[start:]`, strip, keep if non-empty
        some (chunks ++ keepIf (pyStrip (pySlice text start (text.length : Int))))
      else
        chunkFixedSizeLoop tc text fuel
          (nextStart tc start (actualEnd tc text start (start + tc.chunk_size)))
          (chunks ++ keepIf (pyStrip (pySlice text start
            (actualEnd tc text start (start + tc.chunk_size)))))
    else some chunks

/-- `_chunk_fixed_size` (`text_chunker.py:155-217`).  A text no longer than
`chunk_size` is returned whole; otherwise the sliding-window loop runs with
`length + 1` fuel, which the progress theorems below show is sufficient
whenever the Python loop terminates (each iteration advances `start` by at
least one). -/
def chunkFixedSize (tc : TextChunker) (text : List Char) : Option (List (List Char)) :=
  if (text.length : Int) ≤ tc.chunk_size then some [text]
  else chunkFixedSizeLoop tc text (text.length + 1) 0 []

/-- The fixed list of abbreviations of `_compile_patterns`
(`text_chunker.py:69-71`). -/
def abbrevList : List (List Char) :=
  ["Mr".toList, "Mrs".toList, "Ms".toList, "Dr".toList, "Prof".toList,
   "Sr".toList, "Jr".toList, "vs".toList, "etc".toList, "Inc".toList,
   "Ltd".toList, "Co".toList, "Corp".toList]

/-- The alphabetic token immediately preceding offset `i` of `full` is one of
the known abbreviations (so a sentence-end match starting at the period at
offset `i` is an abbreviation false positive). -/
def precededByAbbrev (full : List Char) (i : Nat) : Bool :=
  decide (((full.take i).reverse.takeWhile Char.isAlpha).reverse ∈ abbrevList)

/-- Helper for the spec-modelled sentence splitter: end offsets of the
`sentence_pattern` matches in `full` that are not abbreviation false
positives.  Same scan as `sentLastEndAux`, with the abbreviation filter of
spec sections 4.3 and 4.6 applied at each match start. -/
def sentCutsAux (full : List Char) : Nat → List Char → Nat → List Nat
  | _, [], _ => []
  | 0, _ :: _, _ => []
  | fuel + 1, c :: cs, i =>
    if isSentPunct c then
      if 0 < wsRun c cs then
        if precededByAbbrev full i then
          sentCutsAux full fuel ((c :: cs).drop (punctRun c cs + wsRun c cs))
            (i + punctRun c cs + wsRun c cs)
        else
          (i + punctRun c cs + wsRun c cs) ::
            sentCutsAux full fuel ((c :: cs).drop (punctRun c cs + wsRun c cs))
              (i + punctRun c cs + wsRun c cs)
      else sentCutsAux full fuel cs (i + 1)
    else sentCutsAux full fuel cs (i + 1)

/-- Pieces of `text` delimited by the cut offsets `cuts` (ascending), the
previous cut being `p`. -/
def cutPieces (text : List Char) : List Nat → Nat → List (List Char)
  | [], p => [text.drop p]
  | c :: cs, p => ((text.take c).drop p) :: cutPieces text cs c

/-- Modelled from the spec: `_split_sentences` is called at
`text_chunker.py:230` but defined nowhere in the repository.  Spec sections
4.3 and 4.6: split the text at sentence-ending punctuation followed by
whitespace, excluding matches whose immediately preceding token is a known
abbreviation; pieces are trimmed, empty pieces dropped; for text with no
delimiter the caller falls back to the whole text as one sentence. -/
def splitSentences (text : List Char) : List (List Char) :=
  ((cutPieces text (sentCutsAux text text.length text 0) 0).map pyStrip).filter
    (· ≠ [])

/-- The sentence-accumulation loop of `_chunk_by_sentence`
(`text_chunker.py:239-270`).  State: remaining sentences, finished chunks,
the current buffer, and `current_size` (an `Int`, as in the source). -/
def sentLoop (tc : TextChunker) :
    List (List Char) → List (List Char) → List (List Char) → Int → List (List Char)
  | [], chunks, cur, _ =>
    -- trailing flush (lines 267-270)
    if cur = [] then chunks
    else chunks ++ keepIf (pyStrip (joinSep [' '] cur))
  | s :: rest, chunks, cur, size =>
    if size + (s.length : Int) > tc.chunk_size ∧ cur ≠ [] then
      -- flush (lines 243-247), then the overlap handling (lines 249-261),
      -- then append the sentence and its size plus one (lines 263-264)
      if 0 < tc.chunk_overlap ∧ 1 < cur.length then
        if ((joinSep [' '] (cur.drop (cur.length - 2))).length : Int) ≤
            tc.chunk_overlap then
          sentLoop tc rest (chunks ++ keepIf (pyStrip (joinSep [' '] cur)))
            (cur.drop (cur.length - 2) ++ [s])
            (((joinSep [' '] (cur.drop (cur.length - 2))).length : Int) +
              (s.length : Int) + 1)
        else
          sentLoop tc rest (chunks ++ keepIf (pyStrip (joinSep [' '] cur)))
            (cur.drop (cur.length - 1) ++ [s])
            ((((cur.drop (cur.length - 1)).headD []).length : Int) +
              (s.length : Int) + 1)
      else
        sentLoop tc rest (chunks ++ keepIf (pyStrip (joinSep [' '] cur)))
          ([] ++ [s]) (0 + (s.length : Int) + 1)
    else
      sentLoop tc rest chunks (cur ++ [s]) (size + (s.length : Int) + 1)

/-- `_chunk_by_sentence` (`text_chunker.py:219-272`). -/
def chunkBySentence (tc : TextChunker) (text : List Char) : List (List Char) :=
  if splitSentences text = [] then [text]
  else sentLoop tc (splitSentences text) [] [] 0

/-- Splitting on `paragraph_pattern` (`\n\n+`): `re.split` cuts at each
leftmost non-overlapping maximal run of two or more newlines.  `acc` holds
the characters of the current piece in reverse. -/
def splitParasAux : Nat → List Char → List Char → List (List Char)
  | _, [], acc => [acc.reverse]
  | 0, s, acc => [acc.reverse ++ s]
  | fuel + 1, '\n' :: '\n' :: rest, acc =>
    acc.reverse :: splitParasAux fuel (rest.drop (runLen (· = '\n') rest)) []
  | fuel + 1, c :: rest, acc => splitParasAux fuel rest (c :: acc)

/-- `paragraph_pattern.split(text)` (`text_chunker.py:286`).  The structural
fuel `text.length` is an upper bound on the scan steps, each of which
consumes at least one character. -/
def splitParas (text : List Char) : List (List Char) :=
  splitParasAux text.length text []

/-- A Python value that is either a string or a list: the elements of
`current_chunk` in `_chunk_by_paragraph`.  Line 324 of the source stores a
list (`current_chunk[:1]`) where its joins expect strings, so both variants
are reachable. -/
inductive PyStrOrList where
  | str : List Char → PyStrOrList
  | lst : List PyStrOrList → PyStrOrList

/-- Python `'\n\n'.join(parts)` over a mixed list: raises `TypeError`
(modelled as `none`) as soon as an element is not a string. -/
def pyJoinPara : List PyStrOrList → Option (List Char)
  | [] => some []
  | [PyStrOrList.str s] => some s
  | PyStrOrList.str s :: y :: rest =>
    (pyJoinPara (y :: rest)).map (fun t => s ++ '\n' :: '\n' :: t)
  | PyStrOrList.lst _ :: _ => none

/-- Flushing the paragraph buffer as a chunk (`text_chunker.py:302-307` and
`338-341`): join the buffered values with a blank line — which raises
(`none`) if the overlap handling has nested a list in the buffer — then strip
and keep if non-empty. -/
def paraFlush (chunks : List (List Char)) (cur : List PyStrOrList) :
    Option (List (List Char)) :=
  if cur.isEmpty then some chunks
  else
    match pyJoinPara cur with
    | none => none
    | some t => some (chunks ++ keepIf (pyStrip t))

/-- The paragraph-accumulation loop of `_chunk_by_paragraph`
(`text_chunker.py:296-341`), trailing flush included.  `none` models the
`TypeError` that `'\n\n'.join` raises on a nested list, or a
non-terminating `_chunk_fixed_size` call for an oversized paragraph. -/
def paraLoop (tc : TextChunker) :
    List (List Char) → List (List Char) → List PyStrOrList → Int →
    Option (List (List Char))
  | [], chunks, cur, _ => paraFlush chunks cur
  | para :: rest, chunks, cur, size =>
    if (para.length : Int) > tc.chunk_size then
      -- oversized paragraph (lines 300-312): flush, then fixed-size split
      match paraFlush chunks cur with
      | none => none
      | some chunks2 =>
        match chunkFixedSize tc para with
        | none => none
        | some subs => paraLoop tc rest (chunks2 ++ subs) [] 0
    else
      if size + (para.length : Int) > tc.chunk_size ∧ cur.isEmpty = false then
        match pyJoinPara cur with
        | none => none
        | some t =>
          -- overlap handling (lines 321-332): `last_para = current_chunk[:1]`
          -- is a list, `len(last_para)` is its length (one), and the new
          -- buffer nests that list inside another list
          if 0 < tc.chunk_overlap ∧ cur.isEmpty = false then
            if ((cur.take 1).length : Int) ≤ tc.chunk_overlap then
              paraLoop tc rest (chunks ++ keepIf (pyStrip t))
                ([PyStrOrList.lst (cur.take 1)] ++ [PyStrOrList.str para])
                (((cur.take 1).length : Int) + (para.length : Int) + 2)
            else
              paraLoop tc rest (chunks ++ keepIf (pyStrip t))
                ([] ++ [PyStrOrList.str para]) (0 + (para.length : Int) + 2)
          else
            paraLoop tc rest (chunks ++ keepIf (pyStrip t))
              ([] ++ [PyStrOrList.str para]) (0 + (para.length : Int) + 2)
      else
        paraLoop tc rest chunks (cur ++ [PyStrOrList.str para])
          (size + (para.length : Int) + 2)

/-- `_chunk_by_paragraph` (`text_chunker.py:274-343`). -/
def chunkByParagraph (tc : TextChunker) (text : List Char) :
    Option (List (List Char)) :=
  if ((splitParas text).map pyStrip).filter (· ≠ []) = [] then some [text]
  else paraLoop tc (((splitParas text).map pyStrip).filter (· ≠ [])) [] [] 0

/-- `_chunk_semantic` (`text_chunker.py:345-365`): paragraph chunking when
the text has real paragraph structure, otherwise sentence chunking. -/
def chunkSemantic (tc : TextChunker) (text : List Char) :
    Option (List (List Char)) :=
  if (((splitParas text).map pyStrip).filter (· ≠ [])).length ≤ 1 then
    some (chunkBySentence tc text)
  else chunkByParagraph tc text

/-- Modelled from the spec: `_chunk_recursive` is dispatched to at
`text_chunker.py:110` but defined nowhere in the repository, and the spec
names the strategy (`recursive splitting with fallback`) without giving its
algorithm.  Per the failure semantics of spec section 4.6 (degrade to the
guaranteed-terminating hard cut), it is modelled as the fixed-size
strategy. -/
def chunkRecursive (tc : TextChunker) (text : List Char) :
    Option (List (List Char)) :=
  chunkFixedSize tc text

/-- One output dictionary of `chunk()` (`text_chunker.py:120-126`). -/
structure ChunkRecord where
  text : List Char
  chunk_index : Nat
  chunk_size : Nat
  total_chunks : Nat
  strategy : List Char
  source_metadata : Option (List (List Char × List Char))
deriving DecidableEq, Repr

/-- Strategy dispatch (`text_chunker.py:100-112`).  The `else` arm of the
source repeats the fixed-size strategy but is unreachable over the enum. -/
def dispatch (tc : TextChunker) (text : List Char) : Option (List (List Char)) :=
  match tc.strategy with
  | .fixed_size => chunkFixedSize tc text
  | .sentence => some (chunkBySentence tc text)
  | .paragraph => chunkByParagraph tc text
  | .semantic => chunkSemantic tc text
  | .recursive => chunkRecursive tc text

/-- The statistics update of `chunk()` (`text_chunker.py:134-148`) after a
call that produced chunks of the given sizes: both counters advance, the
chunks-per-text average is recomputed, and the running chunk-size average is
folded in only when the call produced at least one chunk. -/
def updateStats (s : Stats) (sizes : List Nat) : Stats :=
  { texts_chunked := s.texts_chunked + 1
    total_chunks_created := s.total_chunks_created + sizes.length
    avg_chunks_per_text :=
      if s.texts_chunked + 1 > 0 then
        PyFloat.div (PyFloat.ofInt (s.total_chunks_created + sizes.length))
          (PyFloat.ofInt (s.texts_chunked + 1))
      else PyFloat.ofInt 0
    avg_chunk_size :=
      if sizes ≠ [] then
        PyFloat.div
          (PyFloat.add
            (PyFloat.mul s.avg_chunk_size
              (PyFloat.sub (PyFloat.ofInt (s.texts_chunked + 1)) (PyFloat.ofInt 1)))
            (PyFloat.div (PyFloat.ofInt (sizes.sum : Int))
              (PyFloat.ofInt (sizes.length : Int))))
          (PyFloat.ofInt (s.texts_chunked + 1))
      else s.avg_chunk_size }

/-- One pass of the record-building loop of `chunk()`
(`text_chunker.py:118-132`): wrap each surviving segment with its index, its
size, the batch size, the strategy tag and an optional copy of the caller
metadata (Python attaches the key only when the dictionary is truthy). -/
def buildRecords (tc : TextChunker) (meta : Option (List (List Char × List Char)))
    (chunks : List (List Char)) : List ChunkRecord :=
  chunks.enum.map fun p =>
    { text := p.2, chunk_index := p.1, chunk_size := p.2.length
      total_chunks := chunks.length, strategy := tc.strategy.value
      source_metadata := match meta with
        | none => none
        | some m => if m = [] then none else some m }

/-- `chunk()` (`text_chunker.py:73-153`).  The input is `Option (List Char)`:
`none` models a non-string argument such as Python `None`.  The result pairs
the records with the updated engine; `none` models an exception escaping a
strategy (or a non-terminating loop).  The `verbose` prints are omitted. -/
def TextChunker.chunk (tc : TextChunker) (textIn : Option (List Char))
    (metadata : Option (List (List Char × List Char)) := none) :
    Option (List ChunkRecord × TextChunker) :=
  match textIn with
  | none => some ([], tc)
  | some raw =>
    if raw = [] then some ([], tc)
    else
      if ((pyStrip raw).length : Int) < tc.min_chunk_size then some ([], tc)
      else
        match dispatch tc (pyStrip raw) with
        | none => none
        | some chunks0 =>
          some (buildRecords tc metadata
              (chunks0.filter fun c => tc.min_chunk_size ≤ (c.length : Int)),
            { tc with
              stats := updateStats tc.stats
                ((chunks0.filter fun c => tc.min_chunk_size ≤ (c.length : Int)).map
                  List.length) })

/-- Modelled from the spec: `get_statistics` is named an exposed accessor in
spec section 6 but is absent from the repository; a read-only snapshot of the
engine statistics. -/
def TextChunker.get_statistics (tc : TextChunker) : Stats :=
  tc.stats

/-- Modelled from the spec: `reset_statistics` is named an exposed accessor in
spec section 6 but is absent from the repository; returns all counters to
zero. -/
def TextChunker.reset_statistics (tc : TextChunker) : TextChunker :=
  { tc with stats := initStats }

/-- The intermediate engine of the C7 witness chain, after chunking
`"aabbcc"` with target 2. -/
def c7tc1 : TextChunker :=
  { chunk_size := 2, chunk_overlap := 0, strategy := .fixed_size
    min_chunk_size := 1, respect_sentence_boundary := false
    stats := { texts_chunked := 1, total_chunks_created := 3
               avg_chunk_size := { num := 6, den := 3 }
               avg_chunks_per_text := { num := 3, den := 1 } } }

/-- The final engine of the C7 witness chain, after also chunking
`"aabbccddee"`. -/
def c7tc2 : TextChunker :=
  { chunk_size := 2, chunk_overlap := 0, strategy := .fixed_size
    min_chunk_size := 1, respect_sentence_boundary := false
    stats := { texts_chunked := 2, total_chunks_created := 8
               avg_chunk_size := { num := 60, den := 30 }
               avg_chunks_per_text := { num := 8, den := 2 } } }

/-- One record of the C7 witness batches. -/
def c7rec (t : List Char) (i n : Nat) : ChunkRecord :=
  { text := t, chunk_index := i, chunk_size := 2, total_chunks := n
    strategy := "fixed_size".toList, source_metadata := none }

/-! ## Basic lemmas about the string primitives -/

theorem dropWhile_length_le (p : Char → Bool) (l : List Char) :
    (l.dropWhile p).length ≤ l.length := by
  induction l with
  | nil => exact Nat.le_refl _
  | cons c cs ih =>
    rw [List.dropWhile_cons]
    split
    · exact Nat.le_trans ih (Nat.le_succ _)
    · exact Nat.le_refl _

theorem dropWhile_dropWhile (p : Char → Bool) (l : List Char) :
    (l.dropWhile p).dropWhile p = l.dropWhile p := by
  induction l with
  | nil => rfl
  | cons c cs ih =>
    rw [List.dropWhile_cons]
    split
    · exact ih
    · rw [List.dropWhile_cons]
      simp_all

theorem head?_dropWhile_false {p : Char → Bool} {l : List Char} {c : Char}
    (h : (l.dropWhile p).head? = some c) : p c = false := by
  induction l with
  | nil => simp [List.dropWhile] at h
  | cons x xs ih =>
    rw [List.dropWhile_cons] at h
    by_cases hp : p x
    · rw [if_pos hp] at h; exact ih h
    · rw [if_neg hp] at h
      simp only [List.head?_cons, Option.some.injEq] at h
      subst h
      exact Bool.eq_false_iff.mpr hp

theorem dropWhile_eq_self_of_head (p : Char → Bool) (l : List Char)
    (h : ∀ c, l.head? = some c → p c = false) : l.dropWhile p = l := by
  cases l with
  | nil => rfl
  | cons c cs =>
    rw [List.dropWhile_cons, if_neg]
    rw [h c rfl]
    simp

theorem getLast?_dropWhile (p : Char → Bool) (l : List Char)
    (h : l.dropWhile p ≠ []) : (l.dropWhile p).getLast? = l.getLast? := by
  conv_rhs => rw [← List.takeWhile_append_dropWhile p l]
  rw [List.getLast?_append]
  cases hd : (l.dropWhile p).getLast? with
  | none => exact absurd (List.getLast?_eq_none.mp hd) h
  | some x => rfl

theorem pyStrip_reverse_dropWhile (l : List Char) :
    (pyStrip l).reverse.dropWhile isSpacePy = (pyStrip l).reverse := by
  unfold pyStrip
  rw [List.reverse_reverse, dropWhile_dropWhile]

theorem pyStrip_dropWhile (l : List Char) :
    (pyStrip l).dropWhile isSpacePy = pyStrip l := by
  apply dropWhile_eq_self_of_head
  intro c hc
  unfold pyStrip at hc
  rw [List.head?_reverse] at hc
  have hne : (l.dropWhile isSpacePy).reverse.dropWhile isSpacePy ≠ [] := by
    intro hnil
    rw [hnil] at hc
    simp at hc
  rw [getLast?_dropWhile _ _ hne, List.getLast?_reverse] at hc
  exact head?_dropWhile_false hc

theorem pyStrip_idem (l : List Char) : pyStrip (pyStrip l) = pyStrip l := by
  show (((pyStrip l).dropWhile isSpacePy).reverse.dropWhile isSpacePy).reverse = pyStrip l
  rw [pyStrip_dropWhile, pyStrip_reverse_dropWhile, List.reverse_reverse]

theorem dropWs_dropWhile (l : List Char) :
    dropWs (l.dropWhile isSpacePy) = dropWs l := by
  induction l with
  | nil => rfl
  | cons c cs ih =>
    rw [List.dropWhile_cons]
    by_cases h : isSpacePy c
    · rw [if_pos h, ih]
      show _ = List.filter _ (c :: cs)
      rw [List.filter_cons, if_neg (by simp [h])]
      rfl
    · rw [if_neg h]

theorem dropWs_reverse (l : List Char) : dropWs l.reverse = (dropWs l).reverse :=
  List.filter_reverse _ l

theorem dropWs_pyStrip (l : List Char) : dropWs (pyStrip l) = dropWs l := by
  unfold pyStrip
  rw [dropWs_reverse, dropWs_dropWhile, dropWs_reverse, List.reverse_reverse,
    dropWs_dropWhile]

theorem pyStrip_eq_nil_iff (l : List Char) : pyStrip l = [] ↔ dropWs l = [] := by
  constructor
  · intro h
    rw [← dropWs_pyStrip l, h]
    rfl
  · intro h
    have hall : l.dropWhile isSpacePy = [] := by
      rw [List.dropWhile_eq_nil_iff]
      intro x hx
      have := List.filter_eq_nil.mp h x hx
      simpa using this
    unfold pyStrip
    rw [hall]
    rfl

theorem dropWs_ne_nil_of_mem {l : List Char} {c : Char} (hm : c ∈ l)
    (hc : isSpacePy c = false) : dropWs l ≠ [] := by
  intro h
  have := List.filter_eq_nil.mp h c hm
  simp [hc] at this

theorem length_pyStrip_le (l : List Char) : (pyStrip l).length ≤ l.length := by
  unfold pyStrip
  calc ((l.dropWhile isSpacePy).reverse.dropWhile isSpacePy).reverse.length
      = ((l.dropWhile isSpacePy).reverse.dropWhile isSpacePy).length := List.length_reverse _
    _ ≤ (l.dropWhile isSpacePy).reverse.length := dropWhile_length_le _ _
    _ = (l.dropWhile isSpacePy).length := List.length_reverse _
    _ ≤ l.length := dropWhile_length_le _ _

/-! ## Lemmas about Python slicing -/

theorem pyIdx_mono (n : Nat) {a b : Int} (ha : 0 ≤ a) (hab : a ≤ b) :
    pyIdx n a ≤ pyIdx n b := by
  unfold pyIdx
  split <;> split <;> omega

theorem pyIdx_le (n : Nat) (a : Int) : pyIdx n a ≤ n := by
  unfold pyIdx
  split <;> omega

theorem pyIdx_len (n : Nat) : pyIdx n (n : Int) = n := by
  unfold pyIdx
  split <;> omega

theorem length_pySlice_le (l : List Char) {a b : Int} (ha : 0 ≤ a) (hab : a ≤ b) :
    ((pySlice l a b).length : Int) ≤ b - a := by
  unfold pySlice pyIdx
  simp only [List.length_drop, List.length_take]
  split <;> split <;> omega

theorem pySlice_append_drop (l : List Char) {a b : Int} (ha : 0 ≤ a) (hab : a ≤ b) :
    pySlice l a b ++ l.drop (pyIdx l.length b) = l.drop (pyIdx l.length a) := by
  have hse : pyIdx l.length a ≤ pyIdx l.length b := pyIdx_mono _ ha hab
  have hsl : pyIdx l.length a ≤ (l.take (pyIdx l.length b)).length := by
    rw [List.length_take]
    have := pyIdx_le l.length a
    omega
  set s := pyIdx l.length a with hs
  set e := pyIdx l.length b with he
  conv_rhs => rw [← List.take_append_drop e l, List.drop_append_of_le_length hsl]
  rfl

theorem pySlice_to_len (l : List Char) (a : Int) :
    pySlice l a (l.length : Int) = l.drop (pyIdx l.length a) := by
  unfold pySlice
  rw [pyIdx_len, List.take_length]

theorem mem_drop_of_le {x : Char} {l : List Char} {a b : Nat} (hab : a ≤ b)
    (h : x ∈ l.drop b) : x ∈ l.drop a := by
  have hb : l.drop b = (l.drop a).drop (b - a) := by
    rw [List.drop_drop]
    congr 1
    omega
  rw [hb] at h
  exact List.mem_of_mem_drop h

/-! ## Progress of the fixed-size loop -/

theorem sentLastEndAux_lb :
    ∀ (fuel : Nat) (s : List Char) (i : Nat) (best : Option Nat),
    (∀ k, best = some k → 1 ≤ k) →
    ∀ m, sentLastEndAux fuel s i best = some m → 1 ≤ m := by
  intro fuel s i best
  induction fuel, s, i, best using sentLastEndAux.induct
  case case1 fuel i best =>
    intro hb m hm
    rw [sentLastEndAux] at hm
    exact hb m hm
  case case2 c cs i best =>
    intro hb m hm
    rw [sentLastEndAux] at hm
    exact hb m hm
  case case3 fuel c cs i best hp hb ih =>
    intro _ m hm
    rw [sentLastEndAux, if_pos hp, if_pos hb] at hm
    refine ih ?_ m hm
    intro k hk
    simp only [Option.some.injEq] at hk
    simp only [punctRun] at hk
    omega
  case case4 fuel c cs i best hp hb ih =>
    intro hbest m hm
    rw [sentLastEndAux, if_pos hp, if_neg hb] at hm
    exact ih hbest m hm
  case case5 fuel c cs i best hp ih =>
    intro hbest m hm
    rw [sentLastEndAux, if_neg hp] at hm
    exact ih hbest m hm

theorem sentLastEnd_pos {s : List Char} {m : Nat} (h : sentLastEnd s = some m) :
    1 ≤ m :=
  sentLastEndAux_lb s.length s 0 none (by intro k hk; cases hk) m h

theorem findWordBoundary_gt (text : List Char) {start e : Int}
    (he : start + 1 ≤ e) : start < findWordBoundary text start e := by
  unfold findWordBoundary
  cases h : (pySlice text (start + 1) e).reverse.findIdx? isSpacePy with
  | none => simpa using he
  | some k =>
    simp only []
    omega

theorem actualEnd_gt (tc : TextChunker) (text : List Char) {start : Int}
    (hcs : 1 ≤ tc.chunk_size) :
    start < actualEnd tc text start (start + tc.chunk_size) := by
  unfold actualEnd
  split
  · cases h : sentLastEnd (pySlice text start (start + tc.chunk_size)) with
    | none =>
      simp only [h]
      exact findWordBoundary_gt text (by omega)
    | some m =>
      simp only [h]
      have := sentLastEnd_pos h
      omega
  · omega

theorem nextStart_gt (tc : TextChunker) {start ae : Int} (h : start < ae) :
    start < nextStart tc start ae := by
  unfold nextStart
  split <;> omega

theorem nextStart_le (tc : TextChunker) {start ae : Int} (h : start < ae)
    (hov : 0 ≤ tc.chunk_overlap) : nextStart tc start ae ≤ ae := by
  unfold nextStart
  split <;> omega
theorem dropWs_ne_nil_mem {l : List Char} (h : dropWs l ≠ []) :
    ∃ c ∈ l, isSpacePy c = false := by
  by_contra hc
  push_neg at hc
  apply h
  unfold dropWs
  rw [List.filter_eq_nil]
  intro a ha
  simp [hc a ha]

theorem chunkFixedSizeLoop_term (tc : TextChunker) (text : List Char)
    (hcs : 1 ≤ tc.chunk_size) (hov : 0 ≤ tc.chunk_overlap) :
    ∀ (fuel : Nat) (start : Int) (chunks : List (List Char)),
    0 ≤ start → 0 < fuel → (text.length : Int) < start + fuel →
    ∃ rest, chunkFixedSizeLoop tc text fuel start chunks = some (chunks ++ rest) ∧
      (pyStrip (text.drop (pyIdx text.length start)) ≠ [] → rest ≠ []) := by
  intro fuel
  induction fuel with
  | zero =>
    intro start chunks _ hpos _
    omega
  | succ fuel ih =>
    intro start chunks hstart _ hfuel
    rw [chunkFixedSizeLoop]
    by_cases hlt : start < (text.length : Int)
    · rw [if_pos hlt]
      by_cases hend : (text.length : Int) ≤ start + tc.chunk_size
      · rw [if_pos hend]
        refine ⟨keepIf (pyStrip (pySlice text start (text.length : Int))), rfl, ?_⟩
        intro hne
        rw [pySlice_to_len, keepIf, if_neg hne]
        simp
      · rw [if_neg hend]
        have hae : start < actualEnd tc text start (start + tc.chunk_size) :=
          actualEnd_gt tc text hcs
        have hns : start < nextStart tc start (actualEnd tc text start (start + tc.chunk_size)) :=
          nextStart_gt tc hae
        have hnsle : nextStart tc start (actualEnd tc text start (start + tc.chunk_size)) ≤
            actualEnd tc text start (start + tc.chunk_size) := nextStart_le tc hae hov
        obtain ⟨rest, hrest, himp⟩ := ih
          (nextStart tc start (actualEnd tc text start (start + tc.chunk_size)))
          (chunks ++ keepIf (pyStrip (pySlice text start
            (actualEnd tc text start (start + tc.chunk_size)))))
          (by omega) (by omega) (by omega)
        refine ⟨keepIf (pyStrip (pySlice text start
          (actualEnd tc text start (start + tc.chunk_size)))) ++ rest, ?_, ?_⟩
        · rw [hrest, List.append_assoc]
        · intro hne
          by_cases hch : pyStrip (pySlice text start
              (actualEnd tc text start (start + tc.chunk_size))) = []
          · -- the window stripped to nothing: the non-whitespace lives beyond it
            have hwin : dropWs (pySlice text start
                (actualEnd tc text start (start + tc.chunk_size))) = [] :=
              (pyStrip_eq_nil_iff _).mp hch
            have hdec := pySlice_append_drop text hstart (le_of_lt hae)
              (b := actualEnd tc text start (start + tc.chunk_size))
            have hdw : dropWs (text.drop (pyIdx text.length start)) ≠ [] := by
              intro h0
              exact hne ((pyStrip_eq_nil_iff _).mpr h0)
            rw [← hdec] at hdw
            rw [dropWs, List.filter_append] at hdw
            rw [show dropWs (pySlice text start (actualEnd tc text start
              (start + tc.chunk_size))) = List.filter (fun c => !isSpacePy c)
                (pySlice text start (actualEnd tc text start (start + tc.chunk_size)))
              from rfl] at hwin
            rw [hwin, List.nil_append] at hdw
            obtain ⟨ch, hmem, hchws⟩ := dropWs_ne_nil_mem hdw
            have hmem2 : ch ∈ text.drop (pyIdx text.length
                (nextStart tc start (actualEnd tc text start (start + tc.chunk_size)))) :=
              mem_drop_of_le (pyIdx_mono text.length (by omega) hnsle) hmem
            have : rest ≠ [] := himp (by
              intro h0
              have := (pyStrip_eq_nil_iff _).mp h0
              exact dropWs_ne_nil_of_mem hmem2 hchws this)
            intro hx
            rcases List.append_eq_nil.mp hx with ⟨_, h2⟩
            exact this h2
          · intro hx
            rcases List.append_eq_nil.mp hx with ⟨h1, _⟩
            rw [keepIf, if_neg hch] at h1
            cases h1
    · rw [if_neg hlt]
      refine ⟨[], by rw [List.append_nil], ?_⟩
      intro hne
      exfalso
      apply hne
      have hidx : pyIdx text.length start = text.length := by
        unfold pyIdx
        split <;> omega
      rw [hidx, List.drop_length]
      rfl

/-! ## C1: progress and termination of fixed-size segmentation -/

/-- C1 (amended): for every configuration with `target_size ≥ 1` and
`overlap ≥ 0` (including `overlap > target_size`) and every input text, the
fixed-size segmentation loop terminates — each iteration strictly advances
the window start, so `length + 1` iterations always suffice — and it returns
at least one segment whenever the trimmed input is non-empty.  (The claim
said every non-empty input yields a segment; `c1_counterexample` shows a
whitespace-only input terminates with zero segments.) -/
theorem c1_fixed_size_progress (tc : TextChunker) (text : List Char)
    (hcs : 1 ≤ tc.chunk_size) (hov : 0 ≤ tc.chunk_overlap) :
    chunkFixedSize tc text ≠ none ∧
      (pyStrip text ≠ [] → chunkFixedSize tc text ≠ some []) := by
  unfold chunkFixedSize
  by_cases hle : (text.length : Int) ≤ tc.chunk_size
  · rw [if_pos hle]
    refine ⟨by simp, ?_⟩
    intro _ h
    simp at h
  · rw [if_neg hle]
    obtain ⟨rest, hrest, himp⟩ := chunkFixedSizeLoop_term tc text hcs hov
      (text.length + 1) 0 [] le_rfl (by omega) (by omega)
    rw [hrest]
    refine ⟨by simp, ?_⟩
    intro hne heq
    have hrne : rest ≠ [] := himp (by
      have h0 : pyIdx text.length 0 = 0 := by unfold pyIdx; simp
      rw [h0, List.drop_zero]
      exact hne)
    rw [List.nil_append] at heq
    simp only [Option.some.injEq] at heq
    exact hrne heq

/-- Witness for C1 at a concrete configuration and input. -/
theorem c1_fixed_size_progress_witness :
    (1 ≤ (mkTextChunker 2 0 .fixed_size 1 false).chunk_size ∧
      0 ≤ (mkTextChunker 2 0 .fixed_size 1 false).chunk_overlap) ∧
    (chunkFixedSize (mkTextChunker 2 0 .fixed_size 1 false) "abc".toList ≠ none ∧
      (pyStrip "abc".toList ≠ [] →
        chunkFixedSize (mkTextChunker 2 0 .fixed_size 1 false) "abc".toList ≠ some [])) :=
  ⟨⟨by decide, by decide⟩, c1_fixed_size_progress _ _ (by decide) (by decide)⟩

/-- C1 counterexample: the two-space input is non-empty, yet fixed-size
segmentation with target 1 and overlap 0 terminates with zero segments
(every window strips to the empty string and is dropped). -/
theorem c1_counterexample :
    ([' ', ' '] : List Char) ≠ [] ∧
      chunkFixedSize (mkTextChunker 1 0 .fixed_size 1 false) [' ', ' '] = some [] :=
  ⟨by decide, by decide⟩
/-! ## C3 and C5: behavior with boundary respect disabled -/

theorem actualEnd_rsb_false (tc : TextChunker) (text : List Char) (start e : Int)
    (hrsb : tc.respect_sentence_boundary = false) :
    actualEnd tc text start e = e := by
  unfold actualEnd
  rw [hrsb]
  simp

theorem nextStart_ov_zero (tc : TextChunker) (start ae : Int)
    (hov : tc.chunk_overlap = 0) : nextStart tc start ae = ae := by
  unfold nextStart
  rw [hov]
  split <;> omega

theorem mem_keepIf {c ch : List Char} (h : c ∈ keepIf ch) : c = ch := by
  unfold keepIf at h
  split at h
  · cases h
  · rw [List.mem_singleton] at h
    exact h

theorem dropWs_flatten_keepIf (D : List Char) :
    dropWs (List.flatten (keepIf (pyStrip D))) = dropWs D := by
  by_cases h : pyStrip D = []
  · rw [keepIf, if_pos h]
    have : dropWs D = [] := by
      rw [← dropWs_pyStrip D, h]
      rfl
    rw [this]
    rfl
  · rw [keepIf, if_neg h]
    simp only [List.flatten_cons, List.flatten_nil, List.append_nil]
    exact dropWs_pyStrip D

theorem chunkFixedSizeLoop_cover (tc : TextChunker) (text : List Char)
    (hrsb : tc.respect_sentence_boundary = false) (hov : tc.chunk_overlap = 0)
    (hcs : 1 ≤ tc.chunk_size) :
    ∀ (fuel : Nat) (start : Int) (chunks : List (List Char)) (l : List (List Char)),
    0 ≤ start →
    chunkFixedSizeLoop tc text fuel start chunks = some l →
    dropWs l.flatten =
      dropWs chunks.flatten ++ dropWs (text.drop (pyIdx text.length start)) := by
  intro fuel
  induction fuel with
  | zero =>
    intro start chunks l _ h
    cases h
  | succ fuel ih =>
    intro start chunks l hstart h
    rw [chunkFixedSizeLoop] at h
    by_cases hlt : start < (text.length : Int)
    · rw [if_pos hlt] at h
      by_cases hend : (text.length : Int) ≤ start + tc.chunk_size
      · rw [if_pos hend] at h
        simp only [Option.some.injEq] at h
        subst h
        rw [pySlice_to_len, List.flatten_append]
        unfold dropWs
        rw [List.filter_append]
        congr 1
        exact dropWs_flatten_keepIf _
      · rw [if_neg hend] at h
        rw [actualEnd_rsb_false tc text start _ hrsb,
          nextStart_ov_zero tc start _ hov] at h
        have hae : start < start + tc.chunk_size := by omega
        have := ih (start + tc.chunk_size)
          (chunks ++ keepIf (pyStrip (pySlice text start (start + tc.chunk_size))))
          l (by omega) h
        rw [this, List.flatten_append]
        unfold dropWs
        rw [List.filter_append, List.append_assoc]
        congr 1
        have hdec := pySlice_append_drop text hstart (le_of_lt hae)
          (b := start + tc.chunk_size)
        conv_rhs => rw [← hdec]
        rw [List.filter_append]
        congr 1
        exact dropWs_flatten_keepIf _
    · rw [if_neg hlt] at h
      simp only [Option.some.injEq] at h
      subst h
      have hidx : pyIdx text.length start = text.length := by
        unfold pyIdx
        split <;> omega
      rw [hidx, List.drop_length]
      show dropWs chunks.flatten = dropWs chunks.flatten ++ ([] : List Char)
      rw [List.append_nil]

/-- C3 (amended): with boundary respect disabled and `overlap = 0` (where
removing the configured overlap is a no-op), the concatenation of the
returned segments reproduces the non-whitespace characters of the trimmed
input exactly and in order; whitespace at each cut point is removed by the
per-segment trimming of the source (line 203), so the full
character-for-character reconstruction stated by the claim fails
(`c3_counterexample`). -/
theorem c3_coverage (tc : TextChunker) (text : List Char) (l : List (List Char))
    (hrsb : tc.respect_sentence_boundary = false) (hov : tc.chunk_overlap = 0)
    (hcs : 1 ≤ tc.chunk_size)
    (h : chunkFixedSize tc text = some l) :
    dropWs l.flatten = dropWs (pyStrip text) := by
  rw [dropWs_pyStrip]
  unfold chunkFixedSize at h
  by_cases hle : (text.length : Int) ≤ tc.chunk_size
  · rw [if_pos hle] at h
    simp only [Option.some.injEq] at h
    subst h
    simp
  · rw [if_neg hle] at h
    have := chunkFixedSizeLoop_cover tc text hrsb hov hcs
      (text.length + 1) 0 [] l le_rfl h
    rw [this]
    have h0 : pyIdx text.length 0 = 0 := by unfold pyIdx; simp
    rw [h0, List.drop_zero]
    rfl

/-- Witness for C3 at a concrete configuration and input. -/
theorem c3_coverage_witness :
    chunkFixedSize (mkTextChunker 3 0 .fixed_size 1 false) "ab cd".toList =
      some ["ab".toList, "cd".toList] ∧
    dropWs (List.flatten ["ab".toList, "cd".toList]) =
      dropWs (pyStrip "ab cd".toList) :=
  ⟨by decide, c3_coverage (mkTextChunker 3 0 .fixed_size 1 false) "ab cd".toList
    ["ab".toList, "cd".toList] rfl rfl (by decide) (by decide)⟩

/-- C3 counterexample: with overlap `0` (so overlap removal is a no-op) the
concatenated segments lose the space at the cut point and differ from the
trimmed input. -/
theorem c3_counterexample :
    chunkFixedSize (mkTextChunker 3 0 .fixed_size 1 false) "ab cd".toList =
      some ["ab".toList, "cd".toList] ∧
    List.flatten ["ab".toList, "cd".toList] ≠ pyStrip "ab cd".toList :=
  ⟨by decide, by decide⟩

theorem chunkFixedSizeLoop_len (tc : TextChunker) (text : List Char)
    (hrsb : tc.respect_sentence_boundary = false) (hcs : 1 ≤ tc.chunk_size) :
    ∀ (fuel : Nat) (start : Int) (chunks : List (List Char)) (l : List (List Char)),
    0 ≤ start →
    (∀ c ∈ chunks, (c.length : Int) ≤ tc.chunk_size) →
    chunkFixedSizeLoop tc text fuel start chunks = some l →
    ∀ c ∈ l, (c.length : Int) ≤ tc.chunk_size := by
  intro fuel
  induction fuel with
  | zero =>
    intro start chunks l _ _ h
    cases h
  | succ fuel ih =>
    intro start chunks l hstart hacc h
    rw [chunkFixedSizeLoop] at h
    by_cases hlt : start < (text.length : Int)
    · rw [if_pos hlt] at h
      by_cases hend : (text.length : Int) ≤ start + tc.chunk_size
      · rw [if_pos hend] at h
        simp only [Option.some.injEq] at h
        subst h
        intro c hc
        rcases List.mem_append.mp hc with hc | hc
        · exact hacc c hc
        · have hceq := mem_keepIf hc
          subst hceq
          have h1 : ((pyStrip (pySlice text start (text.length : Int))).length : Int) ≤
              ((pySlice text start (text.length : Int)).length : Int) := by
            exact_mod_cast length_pyStrip_le _
          have h2 := length_pySlice_le text hstart (b := (text.length : Int)) (by omega)
          omega
      · rw [if_neg hend] at h
        rw [actualEnd_rsb_false tc text start _ hrsb] at h
        refine ih (nextStart tc start (start + tc.chunk_size))
          (chunks ++ keepIf (pyStrip (pySlice text start (start + tc.chunk_size))))
          l ?_ ?_ h
        · have := @nextStart_gt tc start (start + tc.chunk_size) (by omega)
          omega
        · intro c hc
          rcases List.mem_append.mp hc with hc | hc
          · exact hacc c hc
          · have hceq := mem_keepIf hc
            subst hceq
            have h1 : ((pyStrip (pySlice text start (start + tc.chunk_size))).length : Int) ≤
                ((pySlice text start (start + tc.chunk_size)).length : Int) := by
              exact_mod_cast length_pyStrip_le _
            have h2 := length_pySlice_le text hstart
              (b := start + tc.chunk_size) (by omega)
            omega
    · rw [if_neg hlt] at h
      simp only [Option.some.injEq] at h
      subst h
      exact hacc

/-- C5 (amended): with boundary respect disabled, every returned segment of
fixed-size segmentation of a text longer than `target_size` has length at
most `target_size`.  (The claim said every non-final segment has length
exactly `target_size`; each non-final segment is the trim of a window of
exactly `target_size` characters, and `c5_counterexample` shows trimming can
make it shorter.) -/
theorem c5_size_bound (tc : TextChunker) (text : List Char) (l : List (List Char))
    (hrsb : tc.respect_sentence_boundary = false) (hcs : 1 ≤ tc.chunk_size)
    (hlong : tc.chunk_size < (text.length : Int))
    (h : chunkFixedSize tc text = some l) :
    ∀ c ∈ l, (c.length : Int) ≤ tc.chunk_size := by
  unfold chunkFixedSize at h
  rw [if_neg (by omega)] at h
  exact chunkFixedSizeLoop_len tc text hrsb hcs (text.length + 1) 0 [] l le_rfl
    (by intro c hc; cases hc) h

/-- Witness for C5 at a concrete configuration and input. -/
theorem c5_size_bound_witness :
    (mkTextChunker 3 0 .fixed_size 1 false).chunk_size < ("ab c".toList.length : Int) ∧
    chunkFixedSize (mkTextChunker 3 0 .fixed_size 1 false) "ab c".toList =
      some ["ab".toList, "c".toList] ∧
    ∀ c ∈ ["ab".toList, "c".toList],
      (c.length : Int) ≤ (mkTextChunker 3 0 .fixed_size 1 false).chunk_size :=
  ⟨by decide, by decide,
    c5_size_bound (mkTextChunker 3 0 .fixed_size 1 false) "ab c".toList
      ["ab".toList, "c".toList] rfl (by decide) (by decide) (by decide)⟩

/-- C5 counterexample: the input `"ab c"` is longer than the target `3`, yet
the non-final segment `"ab"` (the trim of the window `"ab "`) has length `2`,
not exactly `target_size = 3`. -/
theorem c5_counterexample :
    chunkFixedSize (mkTextChunker 3 0 .fixed_size 1 false) "ab c".toList =
      some ["ab".toList, "c".toList] ∧
    (mkTextChunker 3 0 .fixed_size 1 false).chunk_size < ("ab c".toList.length : Int) ∧
    "ab".toList.length ≠ 3 :=
  ⟨by decide, by decide, by decide⟩
/-! ## C4: the abbreviation filter is never applied by the fixed-size cut -/

/-- C4: evaluation of the code at the failing input.  With `chunk_size = 8`
and boundary respect on, the first window of `"a Dr. bb cc."` is `"a Dr. bb"`;
its only sentence-pattern match is the period-plus-space of the abbreviation
`"Dr."` (match start 4, end 6, and the token before offset 4 is in the
abbreviation list), and `_chunk_fixed_size` cuts there: the first returned
chunk is `"a Dr."`.  The compiled `abbreviations` pattern of
`_compile_patterns` is never consulted, contradicting the claim that an
abbreviation-preceded match is never selected as the cut point. -/
theorem c4_code_eval :
    chunkFixedSize (mkTextChunker 8 0 .fixed_size 1 true) "a Dr. bb cc.".toList =
      some ["a Dr.".toList, "bb cc.".toList] ∧
    precededByAbbrev "a Dr. bb cc.".toList 4 = true ∧
    sentLastEnd (pySlice "a Dr. bb cc.".toList 0 8) = some 6 :=
  ⟨by decide, by decide, by decide⟩

/-! ## C2 and C8: the paragraph strategy raises on its overlap path -/

/-- C2: evaluation at the failing input.  With the Paragraph strategy,
`chunk_size = 10` and `overlap = 5`, a text of three four-character
paragraphs forces a buffer flush; the overlap handling then stores
`[current_chunk[:1]]` — a list nested inside the buffer (line 324) — and the
next `'\n\n'.join` raises `TypeError`, modelled as `none`: `chunk()` raises
instead of returning a list. -/
theorem c2_code_eval :
    (mkTextChunker 10 5 .paragraph 1 true).chunk
      (some "aaaa\n\nbbbb\n\ncccc".toList) none = none := by decide

/-- C8: evaluation at the failing input.  At the flush the buffer holds the
paragraphs `"pppp", "qqqq"`; per the claim the next buffer should be seeded
with the most recent paragraph `"qqqq"` (length 4 ≤ overlap 6).  The code
instead takes `current_chunk[:1]` (the oldest paragraph, as a list), compares
the list length 1 against the overlap, nests it into the new buffer, and the
final `'\n\n'.join` raises `TypeError` (modelled as `none`). -/
theorem c8_code_eval :
    chunkByParagraph (mkTextChunker 10 6 .paragraph 1 true)
      "pppp\n\nqqqq\n\nrrrr".toList = none := by decide

/-! ## C9: construction never validates -/

/-- C9 (amended): construction performs no validation at all: for every
configuration, including `target_size ≤ 0`, `__init__` succeeds, stores the
five fields verbatim and zeroes the statistics; no hard failure is surfaced
to the caller. -/
theorem c9_init_no_validation (cs ov : Int) (st : ChunkingStrategy) (mn : Int)
    (rsb : Bool) :
    (mkTextChunker cs ov st mn rsb).chunk_size = cs ∧
    (mkTextChunker cs ov st mn rsb).chunk_overlap = ov ∧
    (mkTextChunker cs ov st mn rsb).strategy = st ∧
    (mkTextChunker cs ov st mn rsb).min_chunk_size = mn ∧
    (mkTextChunker cs ov st mn rsb).respect_sentence_boundary = rsb ∧
    (mkTextChunker cs ov st mn rsb).stats = initStats :=
  ⟨rfl, rfl, rfl, rfl, rfl, rfl⟩

/-- C9 counterexample: at `target_size = 0` the source constructor succeeds
and hands back a fully formed engine (`__init__` has no failure path), while
the constructor that follows the spec words rejects the same configuration.
-/
theorem c9_counterexample :
    mkTextChunker 0 50 .fixed_size 50 true =
      { chunk_size := 0, chunk_overlap := 50, strategy := .fixed_size
        min_chunk_size := 50, respect_sentence_boundary := true
        stats := initStats } ∧
    mkTextChunkerSpec 0 50 .fixed_size 50 true = none :=
  ⟨rfl, by decide⟩

/-! ## C10: the early exits of chunk() -/

/-- C10: `chunk()` on a non-string (`None`), on the empty string, and on any
string whose trimmed length is below `min_chunk_size` returns the empty list
without raising and with the engine — statistics included — unchanged. -/
theorem c10_early_exit (tc : TextChunker)
    (meta : Option (List (List Char × List Char))) (s : List Char) :
    tc.chunk none meta = some ([], tc) ∧
    tc.chunk (some []) meta = some ([], tc) ∧
    (((pyStrip s).length : Int) < tc.min_chunk_size →
      tc.chunk (some s) meta = some ([], tc)) := by
  refine ⟨rfl, rfl, ?_⟩
  intro h
  by_cases hs : s = []
  · subst hs
    rfl
  · show (if s = [] then some ([], tc)
      else if ((pyStrip s).length : Int) < tc.min_chunk_size then some ([], tc)
      else _) = some ([], tc)
    rw [if_neg hs, if_pos h]

/-- Witness for C10 at a concrete engine and a concrete short input. -/
theorem c10_early_exit_witness :
    (mkTextChunker 500 50 .fixed_size 50 true).chunk none none =
      some ([], mkTextChunker 500 50 .fixed_size 50 true) ∧
    (mkTextChunker 500 50 .fixed_size 50 true).chunk (some []) none =
      some ([], mkTextChunker 500 50 .fixed_size 50 true) ∧
    ((pyStrip "hi".toList).length : Int) <
      (mkTextChunker 500 50 .fixed_size 50 true).min_chunk_size ∧
    (mkTextChunker 500 50 .fixed_size 50 true).chunk (some "hi".toList) none =
      some ([], mkTextChunker 500 50 .fixed_size 50 true) :=
  ⟨(c10_early_exit _ _ "hi".toList).1, (c10_early_exit _ _ "hi".toList).2.1,
    by decide, (c10_early_exit _ _ "hi".toList).2.2 (by decide)⟩
/-! ## C6: every surviving record is trimmed, sized, and densely indexed -/

theorem chunkFixedSizeLoop_trim (tc : TextChunker) (text : List Char) :
    ∀ (fuel : Nat) (start : Int) (chunks l : List (List Char)),
    (∀ c ∈ chunks, pyStrip c = c) →
    chunkFixedSizeLoop tc text fuel start chunks = some l →
    ∀ c ∈ l, pyStrip c = c := by
  intro fuel
  induction fuel with
  | zero =>
    intro start chunks l _ h
    cases h
  | succ fuel ih =>
    intro start chunks l hacc h
    rw [chunkFixedSizeLoop] at h
    by_cases hlt : start < (text.length : Int)
    · rw [if_pos hlt] at h
      by_cases hend : (text.length : Int) ≤ start + tc.chunk_size
      · rw [if_pos hend] at h
        simp only [Option.some.injEq] at h
        subst h
        intro c hc
        rcases List.mem_append.mp hc with hc | hc
        · exact hacc c hc
        · rw [mem_keepIf hc]
          exact pyStrip_idem _
      · rw [if_neg hend] at h
        refine ih _ _ l ?_ h
        intro c hc
        rcases List.mem_append.mp hc with hc | hc
        · exact hacc c hc
        · rw [mem_keepIf hc]
          exact pyStrip_idem _
    · rw [if_neg hlt] at h
      simp only [Option.some.injEq] at h
      subst h
      exact hacc

theorem chunkFixedSize_trim (tc : TextChunker) (text : List Char)
    (l : List (List Char)) (ht : pyStrip text = text)
    (h : chunkFixedSize tc text = some l) : ∀ c ∈ l, pyStrip c = c := by
  unfold chunkFixedSize at h
  split at h
  · simp only [Option.some.injEq] at h
    subst h
    intro c hc
    rw [List.mem_singleton] at hc
    subst hc
    exact ht
  · exact chunkFixedSizeLoop_trim tc text _ 0 [] l (by intro c hc; cases hc) h

theorem sentLoop_trim (tc : TextChunker) :
    ∀ (sents chunks cur : List (List Char)) (size : Int),
    (∀ c ∈ chunks, pyStrip c = c) →
    ∀ c ∈ sentLoop tc sents chunks cur size, pyStrip c = c := by
  intro sents
  induction sents with
  | nil =>
    intro chunks cur size hacc c hc
    rw [sentLoop] at hc
    split at hc
    · exact hacc c hc
    · rcases List.mem_append.mp hc with hc | hc
      · exact hacc c hc
      · rw [mem_keepIf hc]
        exact pyStrip_idem _
  | cons s rest ih =>
    intro chunks cur size hacc c hc
    rw [sentLoop] at hc
    split at hc
    · have hnew : ∀ d ∈ chunks ++ keepIf (pyStrip (joinSep [' '] cur)),
          pyStrip d = d := by
        intro d hd
        rcases List.mem_append.mp hd with hd | hd
        · exact hacc d hd
        · rw [mem_keepIf hd]
          exact pyStrip_idem _
      split at hc
      · split at hc
        · exact ih _ _ _ hnew c hc
        · exact ih _ _ _ hnew c hc
      · exact ih _ _ _ hnew c hc
    · exact ih _ _ _ hacc c hc

theorem chunkBySentence_trim (tc : TextChunker) (text : List Char)
    (ht : pyStrip text = text) :
    ∀ c ∈ chunkBySentence tc text, pyStrip c = c := by
  unfold chunkBySentence
  split
  · intro c hc
    rw [List.mem_singleton] at hc
    subst hc
    exact ht
  · exact sentLoop_trim tc _ [] [] 0 (by intro c hc; cases hc)

theorem paraFlush_trim {chunks : List (List Char)} {cur : List PyStrOrList}
    {l : List (List Char)} (hacc : ∀ c ∈ chunks, pyStrip c = c)
    (h : paraFlush chunks cur = some l) : ∀ c ∈ l, pyStrip c = c := by
  unfold paraFlush at h
  split at h
  · simp only [Option.some.injEq] at h
    subst h
    exact hacc
  · split at h
    · cases h
    · simp only [Option.some.injEq] at h
      subst h
      intro c hc
      rcases List.mem_append.mp hc with hc | hc
      · exact hacc c hc
      · rw [mem_keepIf hc]
        exact pyStrip_idem _

theorem paraLoop_trim (tc : TextChunker) :
    ∀ (paras : List (List Char)) (chunks : List (List Char))
      (cur : List PyStrOrList) (size : Int) (l : List (List Char)),
    (∀ c ∈ chunks, pyStrip c = c) →
    (∀ p ∈ paras, pyStrip p = p) →
    paraLoop tc paras chunks cur size = some l →
    ∀ c ∈ l, pyStrip c = c := by
  intro paras
  induction paras with
  | nil =>
    intro chunks cur size l hacc _ h
    rw [paraLoop] at h
    exact paraFlush_trim hacc h
  | cons para rest ih =>
    intro chunks cur size l hacc hps h
    have hrest : ∀ p ∈ rest, pyStrip p = p :=
      fun p hp => hps p (List.mem_cons_of_mem _ hp)
    have hpara : pyStrip para = para := hps para (List.mem_cons_self _ _)
    rw [paraLoop] at h
    split at h
    · -- oversized paragraph
      split at h
      · cases h
      · rename_i chunks2 hflush
        split at h
        · cases h
        · rename_i subs hsubs
          refine ih (chunks2 ++ subs) [] 0 l ?_ hrest h
          intro c hc
          rcases List.mem_append.mp hc with hc | hc
          · exact paraFlush_trim hacc hflush c hc
          · exact chunkFixedSize_trim tc para subs hpara hsubs c hc
    · split at h
      · split at h
        · cases h
        · rename_i t hj
          have hnew : ∀ d ∈ chunks ++ keepIf (pyStrip t), pyStrip d = d := by
            intro d hd
            rcases List.mem_append.mp hd with hd | hd
            · exact hacc d hd
            · rw [mem_keepIf hd]
              exact pyStrip_idem _
          split at h
          · split at h
            · exact ih _ _ _ l hnew hrest h
            · exact ih _ _ _ l hnew hrest h
          · exact ih _ _ _ l hnew hrest h
      · exact ih _ _ _ l hacc hrest h

theorem chunkByParagraph_trim (tc : TextChunker) (text : List Char)
    (l : List (List Char)) (ht : pyStrip text = text)
    (h : chunkByParagraph tc text = some l) : ∀ c ∈ l, pyStrip c = c := by
  unfold chunkByParagraph at h
  split at h
  · simp only [Option.some.injEq] at h
    subst h
    intro c hc
    rw [List.mem_singleton] at hc
    subst hc
    exact ht
  · refine paraLoop_trim tc _ [] [] 0 l (by intro c hc; cases hc) ?_ h
    intro p hp
    rcases List.mem_filter.mp hp with ⟨hp, _⟩
    rcases List.mem_map.mp hp with ⟨q, _, hq⟩
    rw [← hq]
    exact pyStrip_idem q

theorem chunkSemantic_trim (tc : TextChunker) (text : List Char)
    (l : List (List Char)) (ht : pyStrip text = text)
    (h : chunkSemantic tc text = some l) : ∀ c ∈ l, pyStrip c = c := by
  unfold chunkSemantic at h
  split at h
  · simp only [Option.some.injEq] at h
    subst h
    exact chunkBySentence_trim tc text ht
  · exact chunkByParagraph_trim tc text l ht h

theorem dispatch_trim (tc : TextChunker) (text : List Char)
    (l : List (List Char)) (ht : pyStrip text = text)
    (h : dispatch tc text = some l) : ∀ c ∈ l, pyStrip c = c := by
  unfold dispatch at h
  cases hs : tc.strategy <;> rw [hs] at h
  · exact chunkFixedSize_trim tc text l ht h
  · simp only [Option.some.injEq] at h
    subst h
    exact chunkBySentence_trim tc text ht
  · exact chunkByParagraph_trim tc text l ht h
  · exact chunkSemantic_trim tc text l ht h
  · exact chunkFixedSize_trim tc text l ht (by
      unfold chunkRecursive at h
      exact h)
/-- C6 (amended): for every successful `chunk()` call on an engine whose
`min_chunk_size` is at least one, every returned record is well-formed: its
text is trimmed, non-empty, and at least `min_chunk_size` long; the index
fields are the dense sequence `0..N-1`; `size` is exactly the character
length of the text; and `total_chunks` equals the batch size in every
record.  (The claim had no bound on `min_chunk_size`; `c6_counterexample`
shows that with `min_chunk_size = 0` a record with empty text is returned.)
-/
theorem c6_record_wellformed (tc : TextChunker) (textIn : Option (List Char))
    (meta : Option (List (List Char × List Char))) (records : List ChunkRecord)
    (tc2 : TextChunker) (hmin : 1 ≤ tc.min_chunk_size)
    (h : tc.chunk textIn meta = some (records, tc2)) :
    ∀ (i : Nat) (hi : i < records.length),
      (records.get ⟨i, hi⟩).text ≠ [] ∧
      pyStrip (records.get ⟨i, hi⟩).text = (records.get ⟨i, hi⟩).text ∧
      tc.min_chunk_size ≤ ((records.get ⟨i, hi⟩).text.length : Int) ∧
      (records.get ⟨i, hi⟩).chunk_index = i ∧
      (records.get ⟨i, hi⟩).chunk_size = (records.get ⟨i, hi⟩).text.length ∧
      (records.get ⟨i, hi⟩).total_chunks = records.length := by
  rcases textIn with _ | raw
  · simp only [TextChunker.chunk, Option.some.injEq, Prod.mk.injEq] at h
    intro i hi
    rw [← h.1] at hi
    simp at hi
  · simp only [TextChunker.chunk] at h
    split at h
    · simp only [Option.some.injEq, Prod.mk.injEq] at h
      intro i hi
      rw [← h.1] at hi
      simp at hi
    · split at h
      · simp only [Option.some.injEq, Prod.mk.injEq] at h
        intro i hi
        rw [← h.1] at hi
        simp at hi
      · split at h
        · cases h
        · rename_i chunks0 hdisp
          simp only [Option.some.injEq, Prod.mk.injEq] at h
          obtain ⟨hrec, _⟩ := h
          subst hrec
          intro i hi
          set L := chunks0.filter fun c => tc.min_chunk_size ≤ (c.length : Int)
            with hLdef
          have hlenrec : (buildRecords tc meta L).length = L.length := by
            simp [buildRecords, List.enum_length]
          have hi2 : i < L.length := by
            rw [← hlenrec]
            exact hi
          have hproj :
              ((buildRecords tc meta L).get ⟨i, hi⟩).text = L.get ⟨i, hi2⟩ ∧
              ((buildRecords tc meta L).get ⟨i, hi⟩).chunk_index = i ∧
              ((buildRecords tc meta L).get ⟨i, hi⟩).chunk_size =
                (L.get ⟨i, hi2⟩).length ∧
              ((buildRecords tc meta L).get ⟨i, hi⟩).total_chunks = L.length := by
            unfold buildRecords
            rw [List.get_eq_getElem]
            rw [List.getElem_map]
            rw [List.getElem_enum]
            exact ⟨rfl, rfl, rfl, rfl⟩
          obtain ⟨htext, hidx, hcs, htot⟩ := hproj
          have hmem : L.get ⟨i, hi2⟩ ∈ L := List.get_mem L _ _
          have hsize : tc.min_chunk_size ≤ ((L.get ⟨i, hi2⟩).length : Int) := by
            have hf := List.of_mem_filter (p := fun (c : List Char) =>
              decide (tc.min_chunk_size ≤ (c.length : Int))) hmem
            exact of_decide_eq_true hf
          have htrim : pyStrip (L.get ⟨i, hi2⟩) = L.get ⟨i, hi2⟩ :=
            dispatch_trim tc (pyStrip raw) chunks0 (pyStrip_idem raw) hdisp _
              (List.mem_of_mem_filter hmem)
          rw [htext, hidx, hcs, htot]
          refine ⟨?_, htrim, hsize, rfl, rfl, by rw [hlenrec]⟩
          intro hnil
          rw [hnil] at hsize
          simp at hsize
          omega

/-- Witness for C6 at a concrete engine and input. -/
theorem c6_record_wellformed_witness :
    1 ≤ (mkTextChunker 2 0 .fixed_size 1 false).min_chunk_size ∧
    (mkTextChunker 2 0 .fixed_size 1 false).chunk (some "ab".toList) none =
      some ([{ text := "ab".toList, chunk_index := 0, chunk_size := 2
               total_chunks := 1, strategy := "fixed_size".toList
               source_metadata := none }],
        { chunk_size := 2, chunk_overlap := 0, strategy := .fixed_size
          min_chunk_size := 1, respect_sentence_boundary := false
          stats := { texts_chunked := 1, total_chunks_created := 1
                     avg_chunk_size := { num := 2, den := 1 }
                     avg_chunks_per_text := { num := 1, den := 1 } } }) ∧
    (([{ text := "ab".toList, chunk_index := 0, chunk_size := 2
         total_chunks := 1, strategy := "fixed_size".toList
         source_metadata := none }] : List ChunkRecord).get
        ⟨0, by decide⟩).text ≠ [] ∧
    (mkTextChunker 2 0 .fixed_size 1 false).min_chunk_size ≤
      ((([{ text := "ab".toList, chunk_index := 0, chunk_size := 2
            total_chunks := 1, strategy := "fixed_size".toList
            source_metadata := none }] : List ChunkRecord).get
          ⟨0, by decide⟩).text.length : Int) := by
  refine ⟨by decide, by decide, ?_, ?_⟩
  · exact ((c6_record_wellformed (mkTextChunker 2 0 .fixed_size 1 false)
      (some "ab".toList) none
      [{ text := "ab".toList, chunk_index := 0, chunk_size := 2
         total_chunks := 1, strategy := "fixed_size".toList
         source_metadata := none }]
      { chunk_size := 2, chunk_overlap := 0, strategy := .fixed_size
        min_chunk_size := 1, respect_sentence_boundary := false
        stats := { texts_chunked := 1, total_chunks_created := 1
                   avg_chunk_size := { num := 2, den := 1 }
                   avg_chunks_per_text := { num := 1, den := 1 } } }
      (by decide) (by decide)) 0 (by decide)).1
  · exact ((c6_record_wellformed (mkTextChunker 2 0 .fixed_size 1 false)
      (some "ab".toList) none
      [{ text := "ab".toList, chunk_index := 0, chunk_size := 2
         total_chunks := 1, strategy := "fixed_size".toList
         source_metadata := none }]
      { chunk_size := 2, chunk_overlap := 0, strategy := .fixed_size
        min_chunk_size := 1, respect_sentence_boundary := false
        stats := { texts_chunked := 1, total_chunks_created := 1
                   avg_chunk_size := { num := 2, den := 1 }
                   avg_chunks_per_text := { num := 1, den := 1 } } }
      (by decide) (by decide)) 0 (by decide)).2.2.1

/-- C6 counterexample: with `min_chunk_size = 0` (an integer field the source
never validates) the whitespace-only input `" "` strips to the empty string,
passes the minimum-length gate, and `chunk()` returns one record whose text
is empty — the claimed never-empty invariant fails. -/
theorem c6_counterexample :
    ((mkTextChunker 500 50 .fixed_size 0 true).chunk (some [' ']) none).map
      (fun p => p.1.map (fun r => r.text)) = some [[]] := by decide
/-! ## C7: the statistics counters -/

theorem chunk_stats (tc : TextChunker) (textIn : Option (List Char))
    (meta : Option (List (List Char × List Char))) (records : List ChunkRecord)
    (tc2 : TextChunker)
    (h : tc.chunk textIn meta = some (records, tc2)) (hne : records ≠ []) :
    tc2.stats.texts_chunked = tc.stats.texts_chunked + 1 ∧
    tc2.stats.total_chunks_created =
      tc.stats.total_chunks_created + records.length := by
  rcases textIn with _ | raw
  · simp only [TextChunker.chunk, Option.some.injEq, Prod.mk.injEq] at h
    exact absurd h.1.symm hne
  · simp only [TextChunker.chunk] at h
    split at h
    · simp only [Option.some.injEq, Prod.mk.injEq] at h
      exact absurd h.1.symm hne
    · split at h
      · simp only [Option.some.injEq, Prod.mk.injEq] at h
        exact absurd h.1.symm hne
      · split at h
        · cases h
        · rename_i chunks0 hdisp
          simp only [Option.some.injEq, Prod.mk.injEq] at h
          obtain ⟨hrec, htc⟩ := h
          subst htc
          constructor
          · rfl
          · rw [← hrec]
            show tc.stats.total_chunks_created +
              (((chunks0.filter fun c => tc.min_chunk_size ≤ (c.length : Int)).map
                List.length).length : Int) = _
            simp [buildRecords, List.enum_length]

/-- C7: two `chunk()` calls that produce 3 and 5 records, starting from a
freshly constructed engine, leave `get_statistics` reporting
`total_chunks_created = 8` and `texts_chunked = 2` (the spec field
`texts_processed` is the source key `texts_chunked`), and
`reset_statistics` returns the engine to the all-zero statistics state. -/
theorem c7_statistics (tc : TextChunker) (t1 t2 : Option (List Char))
    (m1 m2 : Option (List (List Char × List Char)))
    (r1 r2 : List ChunkRecord) (tc1 tc2 : TextChunker)
    (h0 : tc.stats = initStats)
    (h1 : tc.chunk t1 m1 = some (r1, tc1)) (hr1 : r1.length = 3)
    (h2 : tc1.chunk t2 m2 = some (r2, tc2)) (hr2 : r2.length = 5) :
    (tc2.get_statistics).total_chunks_created = 8 ∧
    (tc2.get_statistics).texts_chunked = 2 ∧
    (tc2.reset_statistics).get_statistics = initStats := by
  have e1 := chunk_stats tc t1 m1 r1 tc1 h1
    (by intro hx; rw [hx] at hr1; cases hr1)
  have e2 := chunk_stats tc1 t2 m2 r2 tc2 h2
    (by intro hx; rw [hx] at hr2; cases hr2)
  refine ⟨?_, ?_, rfl⟩
  · show tc2.stats.total_chunks_created = 8
    rw [e2.2, e1.2, h0, hr1, hr2]
    decide
  · show tc2.stats.texts_chunked = 2
    rw [e2.1, e1.1, h0]
    decide

/-- Witness for C7: a concrete engine (target 2, overlap 0, fixed size)
chunks `"aabbcc"` into 3 records and then `"aabbccddee"` into 5, after which
the counters read 8 chunks over 2 texts, and resetting restores the zero
state. -/
theorem c7_statistics_witness :
    (mkTextChunker 2 0 .fixed_size 1 false).stats = initStats ∧
    (mkTextChunker 2 0 .fixed_size 1 false).chunk (some "aabbcc".toList) none =
      some ([c7rec "aa".toList 0 3, c7rec "bb".toList 1 3, c7rec "cc".toList 2 3],
        c7tc1) ∧
    [c7rec "aa".toList 0 3, c7rec "bb".toList 1 3, c7rec "cc".toList 2 3].length
      = 3 ∧
    c7tc1.chunk (some "aabbccddee".toList) none =
      some ([c7rec "aa".toList 0 5, c7rec "bb".toList 1 5, c7rec "cc".toList 2 5,
             c7rec "dd".toList 3 5, c7rec "ee".toList 4 5], c7tc2) ∧
    [c7rec "aa".toList 0 5, c7rec "bb".toList 1 5, c7rec "cc".toList 2 5,
      c7rec "dd".toList 3 5, c7rec "ee".toList 4 5].length = 5 ∧
    (c7tc2.get_statistics).total_chunks_created = 8 ∧
    (c7tc2.get_statistics).texts_chunked = 2 ∧
    (c7tc2.reset_statistics).get_statistics = initStats := by
  have H := c7_statistics (mkTextChunker 2 0 .fixed_size 1 false)
    (some "aabbcc".toList) (some "aabbccddee".toList) none none
    [c7rec "aa".toList 0 3, c7rec "bb".toList 1 3, c7rec "cc".toList 2 3]
    [c7rec "aa".toList 0 5, c7rec "bb".toList 1 5, c7rec "cc".toList 2 5,
      c7rec "dd".toList 3 5, c7rec "ee".toList 4 5]
    c7tc1 c7tc2 rfl (by decide) (by decide) (by decide) (by decide)
  exact ⟨rfl, by decide, by decide, by decide, by decide, H.1, H.2.1, H.2.2⟩
